import Mathlib

/-!
Verification of the music-recorder transport/recording/looper core.

The TypeScript sources are embedded shallowly: clock values, durations and
audio samples are rationals; JavaScript `%` (remainder, sign of the
dividend) is `jsMod`; fallible paths (exceptions in the audio callback,
unguarded index accesses) are modelled with `Option` or explicit crash
flags.  Two variants of `AudioEngine` appear in the repository; the
`Transport`/`Recording` namespaces follow `src/src/audio/AudioEngine.ts`,
the `EngineV2` namespace follows the variant with count-in, `padBuffer`
and `exportMix`.
-/

namespace MusicRecorder

/-- Floor of a rational, written so the kernel can evaluate it
(`Int.floor` on ℚ agrees but is not reducible by `decide`). -/
def ratFloor (q : ℚ) : ℤ :=
  q.num / q.den

theorem ratFloor_eq (q : ℚ) : ratFloor q = ⌊q⌋ :=
  Rat.floor_def.symm

/-- `Math.ceil` on a rational. -/
def ratCeil (q : ℚ) : ℤ :=
  -ratFloor (-q)

theorem ratCeil_eq (q : ℚ) : ratCeil q = ⌈q⌉ := by
  rw [ratCeil, ratFloor_eq, Int.floor_neg, neg_neg]

/-- Truncation toward zero, as JavaScript coerces in `x % y` for `x / y`. -/
def ratTrunc (q : ℚ) : ℤ :=
  if 0 ≤ q then ratFloor q else ratCeil q

/-- JavaScript `%` on numbers: remainder with the sign of the dividend
(`x - y * trunc(x / y)`). -/
def jsMod (x y : ℚ) : ℚ :=
  x - y * ratTrunc (x / y)

theorem jsMod_nonneg {x y : ℚ} (hx : 0 ≤ x) (hy : 0 < y) : 0 ≤ jsMod x y := by
  have hq : (0 : ℚ) ≤ x / y := div_nonneg hx hy.le
  have hfl : ((⌊x / y⌋ : ℤ) : ℚ) ≤ x / y := Int.floor_le _
  have h1 : ((⌊x / y⌋ : ℤ) : ℚ) * y ≤ x := by
    have := (div_le_div_iff_of_pos_right hy).mpr hfl
    calc ((⌊x / y⌋ : ℤ) : ℚ) * y ≤ (x / y) * y := by
          exact mul_le_mul_of_nonneg_right hfl hy.le
      _ = x := div_mul_cancel₀ x hy.ne'
  simp only [jsMod, ratTrunc, if_pos hq, ratFloor_eq]
  linarith [h1]

theorem jsMod_lt {x y : ℚ} (hx : 0 ≤ x) (hy : 0 < y) : jsMod x y < y := by
  have hq : (0 : ℚ) ≤ x / y := div_nonneg hx hy.le
  have hfl : x / y < (⌊x / y⌋ : ℤ) + 1 := Int.lt_floor_add_one _
  have h1 : x < (((⌊x / y⌋ : ℤ) : ℚ) + 1) * y := by
    calc x = (x / y) * y := (div_mul_cancel₀ x hy.ne').symm
      _ < (((⌊x / y⌋ : ℤ) : ℚ) + 1) * y := by
          exact mul_lt_mul_of_pos_right (by exact_mod_cast hfl) hy
  simp only [jsMod, ratTrunc, if_pos hq, ratFloor_eq]
  nlinarith [h1]

/-! ## Transport state (src/src/audio/AudioEngine.ts)

State relevant to `playAll` / `seekTo` / `stopAllPlayback` /
`getCurrentTime`.  `context.currentTime` is passed explicitly as `now`
to every operation that reads the clock. -/

namespace Transport

structure State where
  isPlaying : Bool
  isRecording : Bool
  playStartTime : ℚ
  playStartOffset : ℚ
  loopDuration : ℚ
  lastPlayTracksLen : ℕ
deriving DecidableEq, Repr

/-- `playAll` (src variant): stops playback, records the track list for
re-seeking, sets the (startTime, startOffset) reference pair and marks
the engine playing.  This variant never touches `loopDuration`. -/
def playAll (tracksLen : ℕ) (offset now : ℚ) (s : State) : State :=
  { s with isPlaying := true
           playStartOffset := offset
           playStartTime := now
           lastPlayTracksLen := tracksLen }

/-- The clamp performed at the top of `seekTo`:
`[0, loopDuration]` when a loop is defined, `[0, ∞)` otherwise. -/
def seekClamp (s : State) (t : ℚ) : ℚ :=
  if 0 < s.loopDuration then max 0 (min t s.loopDuration) else max 0 t

/-- `seekTo`: restart `playAll` at the clamped time when playing with a
remembered track list, otherwise rewrite the stored offset/clock pair. -/
def seekTo (t now : ℚ) (s : State) : State :=
  let c := seekClamp s t
  if s.isPlaying ∧ 0 < s.lastPlayTracksLen then
    playAll s.lastPlayTracksLen c now s
  else
    { s with playStartOffset := c, playStartTime := now }

/-- `stopAllPlayback`: clears the playing flag and the source lists. -/
def stopAllPlayback (s : State) : State :=
  { s with isPlaying := false }

/-- `getCurrentTime`: stored offset when neither playing nor recording,
else `(now - playStartTime + playStartOffset) % loopDuration` (JS `%`),
unwrapped when no loop is defined. -/
def getCurrentTime (now : ℚ) (s : State) : ℚ :=
  if s.isPlaying = false ∧ s.isRecording = false then
    s.playStartOffset
  else
    let elapsed := now - s.playStartTime + s.playStartOffset
    if 0 < s.loopDuration then jsMod elapsed s.loopDuration else elapsed

inductive TEvent where
  | seek (t now : ℚ)
  | play (tracksLen : ℕ) (offset now : ℚ)
  | stop
deriving DecidableEq, Repr

def step (s : State) (e : TEvent) : State :=
  match e with
  | .seek t now => seekTo t now s
  | .play n offset now => playAll n offset now s
  | .stop => stopAllPlayback s

/-- Validity of a call against the current state: the clock is monotone
(`now` is at or after the stored reference) and `playAll` offsets are
positions inside the loop, as produced by `getCurrentTime`/`seekTo`. -/
def validEvent (s : State) : TEvent → Bool
  | .seek _ now => decide (s.playStartTime ≤ now)
  | .play _ offset now =>
      decide (0 ≤ offset) && decide (offset ≤ s.loopDuration) &&
        decide (s.playStartTime ≤ now)
  | .stop => true

def validRun (s : State) : List TEvent → Bool
  | [] => true
  | e :: es => validEvent s e && validRun (step s e) es

def run (s : State) (es : List TEvent) : State :=
  es.foldl step s

/-- Engine state right after the loop has been defined with duration `D`:
stopped, play-head reference at 0. -/
def initState (D : ℚ) : State :=
  ⟨false, false, 0, 0, D, 0⟩

/-- Invariant maintained by seek/play/stop once a loop of duration `D`
is defined. -/
def Inv (D : ℚ) (s : State) : Prop :=
  s.loopDuration = D ∧ 0 ≤ s.playStartOffset ∧ s.playStartOffset ≤ D ∧
    s.isRecording = false

theorem seekClamp_mem (s : State) (t : ℚ) (h : 0 < s.loopDuration) :
    0 ≤ seekClamp s t ∧ seekClamp s t ≤ s.loopDuration := by
  simp only [seekClamp, if_pos h]
  refine ⟨le_max_left _ _, ?_⟩
  exact max_le h.le (min_le_right _ _)

theorem step_inv {D : ℚ} {s : State} (hD : 0 < D) (hs : Inv D s)
    (e : TEvent) (hv : validEvent s e = true) : Inv D (step s e) := by
  obtain ⟨hloop, h0, h1, hrec⟩ := hs
  cases e with
  | seek t now =>
      have hmem := seekClamp_mem s t (by rw [hloop]; exact hD)
      rw [hloop] at hmem
      simp only [step, seekTo]
      split
      · exact ⟨hloop, hmem.1, hmem.2, hrec⟩
      · exact ⟨hloop, hmem.1, hmem.2, hrec⟩
  | play n offset now =>
      simp only [validEvent, Bool.and_eq_true, decide_eq_true_eq] at hv
      exact ⟨hloop, hv.1.1, hloop ▸ hv.1.2, hrec⟩
  | stop =>
      exact ⟨hloop, h0, h1, hrec⟩

theorem run_inv {D : ℚ} (hD : 0 < D) :
    ∀ (es : List TEvent) (s : State), Inv D s → validRun s es = true →
      Inv D (run s es) := by
  intro es
  induction es with
  | nil => intro s hs _; exact hs
  | cons e es ih =>
      intro s hs hv
      simp only [validRun, Bool.and_eq_true] at hv
      exact ih (step s e) (step_inv hD hs e hv.1) hv.2

theorem getCurrentTime_bounds {D : ℚ} {s : State} (hD : 0 < D)
    (hs : Inv D s) {now : ℚ} (hnow : s.playStartTime ≤ now) :
    0 ≤ getCurrentTime now s ∧ getCurrentTime now s ≤ D ∧
      (s.isPlaying = true → getCurrentTime now s < D) := by
  obtain ⟨hloop, h0, h1, hrec⟩ := hs
  subst hloop
  by_cases hp : s.isPlaying = false
  · simp only [getCurrentTime, if_pos (And.intro hp hrec)]
    exact ⟨h0, h1, by intro h; rw [hp] at h; cases h⟩
  · have hp' : s.isPlaying = true := by
      cases h : s.isPlaying
      · exact absurd h hp
      · rfl
    have hcond : ¬ (s.isPlaying = false ∧ s.isRecording = false) := by
      intro h; exact hp h.1
    have helapsed : 0 ≤ now - s.playStartTime + s.playStartOffset := by
      linarith
    simp only [getCurrentTime, if_neg hcond, if_pos hD]
    have hnn := jsMod_nonneg helapsed hD
    have hlt := jsMod_lt helapsed hD
    exact ⟨hnn, hlt.le, fun _ => hlt⟩

end Transport

/-- C1 (counterexample): with a loop of duration 1, the valid call
`seekTo 1` while stopped stores the clamped value 1, and `getCurrentTime`
then returns exactly `loopDuration` — outside the half-open interval
`[0, loopDuration)` the claim demands. -/
theorem transport_time_counterexample :
    Transport.validRun (Transport.initState 1) [Transport.TEvent.seek 1 0] = true ∧
    Transport.getCurrentTime 0
      (Transport.run (Transport.initState 1) [Transport.TEvent.seek 1 0]) = 1 ∧
    ¬ Transport.getCurrentTime 0
      (Transport.run (Transport.initState 1) [Transport.TEvent.seek 1 0]) < 1 := by
  refine ⟨by decide, by decide, by decide⟩

/-- C1 (amended): once a loop of duration `D > 0` is defined, every valid
sequence of `seekTo` / `playAll` / `stopAllPlayback` calls (clock
monotone, `playAll` offsets inside the loop) keeps `getCurrentTime` in
the closed interval `[0, D]`; while playing the value is strictly below
`D`; `seekTo` clamps its argument to `[0, loopDuration]`; and when
neither playing nor recording `getCurrentTime` returns the stored offset
unchanged. -/
theorem transport_time_in_loop (D : ℚ) (hD : 0 < D) (es : List Transport.TEvent)
    (hv : Transport.validRun (Transport.initState D) es = true) (now : ℚ)
    (hnow : (Transport.run (Transport.initState D) es).playStartTime ≤ now) :
    (0 ≤ Transport.getCurrentTime now (Transport.run (Transport.initState D) es) ∧
      Transport.getCurrentTime now (Transport.run (Transport.initState D) es) ≤ D ∧
      ((Transport.run (Transport.initState D) es).isPlaying = true →
        Transport.getCurrentTime now (Transport.run (Transport.initState D) es) < D)) ∧
    (∀ (s : Transport.State) (t : ℚ), 0 < s.loopDuration →
      0 ≤ Transport.seekClamp s t ∧ Transport.seekClamp s t ≤ s.loopDuration) ∧
    (∀ (s : Transport.State) (n : ℚ), s.isPlaying = false → s.isRecording = false →
      Transport.getCurrentTime n s = s.playStartOffset) := by
  have hinit : Transport.Inv D (Transport.initState D) :=
    ⟨rfl, le_refl 0, hD.le, rfl⟩
  have hrun := Transport.run_inv hD es (Transport.initState D) hinit hv
  refine ⟨Transport.getCurrentTime_bounds hD hrun hnow, ?_, ?_⟩
  · intro s t h
    exact Transport.seekClamp_mem s t h
  · intro s n hp hr
    simp only [Transport.getCurrentTime, if_pos (And.intro hp hr)]

/-- C1 witness: a concrete valid run (play, seek, stop) with the bounds
evaluated at `now = 3`. -/
theorem transport_time_in_loop_witness :
    (0 : ℚ) < 2 ∧
    Transport.validRun (Transport.initState 2)
      [Transport.TEvent.play 1 0 0, Transport.TEvent.seek (3/2) 1,
        Transport.TEvent.stop] = true ∧
    0 ≤ Transport.getCurrentTime 3
      (Transport.run (Transport.initState 2)
        [Transport.TEvent.play 1 0 0, Transport.TEvent.seek (3/2) 1,
          Transport.TEvent.stop]) := by
  have hv : Transport.validRun (Transport.initState 2)
      [Transport.TEvent.play 1 0 0, Transport.TEvent.seek (3/2) 1,
        Transport.TEvent.stop] = true := by decide
  have hnow : (Transport.run (Transport.initState 2)
      [Transport.TEvent.play 1 0 0, Transport.TEvent.seek (3/2) 1,
        Transport.TEvent.stop]).playStartTime ≤ 3 := by decide
  exact ⟨by norm_num, hv,
    (transport_time_in_loop 2 (by norm_num) _ hv 3 hnow).1.1⟩

/-! ## Recording pipeline (src/src/audio/AudioEngine.ts)

The `onaudioprocess` capture callback, the incremental preview update and
`stopRecording`.  A JavaScript exception inside the callback aborts the
remaining statements of that invocation but leaves earlier mutations in
place; this is modelled by a crash flag: when `updatePreview` crashes,
the sample-count increment and the auto-stop flag flip that follow it in
the source are skipped. -/

namespace Recording

/-- One preview bin (`{ min, max }` in the source). -/
structure Bin where
  binMin : ℚ
  binMax : ℚ
deriving DecidableEq, Repr

/-- The inner scan of a bin segment:
`if (v < bin.min) bin.min = v; if (v > bin.max) bin.max = v`. -/
def scanSeg (b : Bin) (seg : List ℚ) : Bin :=
  seg.foldl
    (fun b v =>
      ⟨if v < b.binMin then v else b.binMin,
       if v > b.binMax then v else b.binMax⟩) b

/-- The `while (posInChunk < chunk.length)` loop of `updatePreview`.
`tbc` is `totalBeforeChunk`.  Bin indices use `Math.floor` division
(`Int.ediv`); a negative `binIndex` makes `this.recordingPreview[binIndex]`
yield `undefined`, and the subsequent `bin.min` access throws — modelled
by returning the preview mutated so far together with crash flag `true`.
`fuel` bounds the iteration count; each iteration consumes at least one
sample whenever `1 ≤ spb` (always true at the call sites, where
`samplesPerBin = Math.max(1, …)`), so `fuel = chunk.length + 1` is never
exhausted there. -/
def updatePreviewLoop (spb : ℕ) (tbc : ℤ) (chunk : List ℚ) :
    ℕ → ℕ → List Bin → List Bin × Bool
  | fuel, pos, preview =>
    if pos < chunk.length then
      match fuel with
      | 0 => (preview, true)
      | fuel' + 1 =>
        let globalSample : ℤ := tbc + pos
        let binIndex : ℤ := globalSample / (spb : ℤ)
        -- while (preview.length <= binIndex) push({min: 0, max: 0})
        let preview1 : List Bin :=
          preview ++ List.replicate (binIndex + 1 - preview.length).toNat ⟨0, 0⟩
        if binIndex < 0 then (preview1, true)
        else
          let nextBinStart : ℤ := (binIndex + 1) * spb
          let cnt : ℕ := min (nextBinStart - globalSample).toNat
            (chunk.length - pos)
          let bin := preview1.getD binIndex.toNat ⟨0, 0⟩
          let bin2 := scanSeg bin ((chunk.drop pos).take cnt)
          updatePreviewLoop spb tbc chunk fuel' (pos + cnt)
            (preview1.set binIndex.toNat bin2)
    else (preview, false)

/-- `updatePreview(chunk, samplesPerBin)`, called with the value
`recordingTotalSamples` holds at call time (`total`):
`totalBeforeChunk = recordingTotalSamples - chunk.length`. -/
def updatePreview (spb : ℕ) (total : ℕ) (chunk : List ℚ) (preview : List Bin) :
    List Bin × Bool :=
  updatePreviewLoop spb ((total : ℤ) - chunk.length) chunk (chunk.length + 1) 0 preview

/-- Capture-side engine state: `recordingChunks`, `recordingTotalSamples`,
`recordingPreview`, `isCurrentlyRecording`. -/
structure RecState where
  chunks : List (List ℚ)
  total : ℕ
  preview : List Bin
  recording : Bool
deriving DecidableEq, Repr

/-- State right after `startRecording` reset the capture fields. -/
def initRec : RecState :=
  ⟨[], 0, [], true⟩

/-- `Math.ceil(loopDuration * sampleRate)` for a defined loop. -/
def maxSamplesFor (D R : ℚ) : ℕ :=
  (ratCeil (D * R)).toNat

/-- `Math.max(1, Math.floor(expectedSamples / PREVIEW_BINS))`. -/
def samplesPerBin (expectedSamples : ℕ) : ℕ :=
  max 1 (expectedSamples / 800)

/-- The non-cap path of the callback: push the chunk, update the preview,
then (unless the preview update threw) add the chunk length to the
running sample count. -/
def pushChunk (spb : ℕ) (chunk : List ℚ) (s : RecState) : RecState :=
  let res := updatePreview spb s.total chunk s.preview
  if res.2 then
    { s with chunks := s.chunks ++ [chunk], preview := res.1 }
  else
    { s with chunks := s.chunks ++ [chunk], preview := res.1,
             total := s.total + chunk.length }

/-- One invocation of the `onaudioprocess` handler.  `maxSamples = none`
is `Infinity` (free recording).  When `updatePreview` throws, the
statements after it (`recordingTotalSamples += …` and, in the cap
branch, `isCurrentlyRecording = false`) are skipped, while the chunk
pushed before it stays. -/
def onAudioProcess (maxSamples : Option ℕ) (spb : ℕ) (chunk : List ℚ)
    (s : RecState) : RecState :=
  if s.recording = false then s
  else
    match maxSamples with
    | some m =>
      if s.total + chunk.length ≥ m then
        let remaining := m - s.total
        if 0 < remaining then
          let trimmed := chunk.take remaining
          let res := updatePreview spb s.total trimmed s.preview
          if res.2 then
            { s with chunks := s.chunks ++ [trimmed], preview := res.1 }
          else
            { chunks := s.chunks ++ [trimmed], total := s.total + remaining,
              preview := res.1, recording := false }
        else
          { s with recording := false }
      else
        pushChunk spb chunk s
    | none => pushChunk spb chunk s

/-- Feed a sequence of captured chunks through the callback. -/
def processChunks (maxSamples : Option ℕ) (spb : ℕ) (chunks : List (List ℚ))
    (s : RecState) : RecState :=
  chunks.foldl (fun st c => onAudioProcess maxSamples spb c st) s

/-- `stopRecording`: clears the recording flag, returns `null` when no
chunks were captured, else concatenates the chunks into one buffer and
clears the chunk list. -/
def stopRecording (s : RecState) : Option (List ℚ) × RecState :=
  if s.chunks = [] then (none, { s with recording := false })
  else (some s.chunks.flatten, { s with recording := false, chunks := [] })

end Recording

/-- C2 (code evaluated at the failing input): loop duration `D = 1` s at
sample rate `R = 10`, cap `ceil(D·R) = 10` samples, three incoming chunks
of 4 samples each.  Because `updatePreview` is called before
`recordingTotalSamples` is incremented, it computes a negative global
sample index and throws on every chunk, skipping the increment: the
sample count stays 0, the auto-stop flag never flips, and `stopRecording`
returns a 12-sample buffer — more than the claimed `round(D×R) = 10`. -/
theorem recording_autostop_bug :
    Recording.maxSamplesFor 1 10 = 10 ∧
    Recording.samplesPerBin 10 = 1 ∧
    (Recording.processChunks (some 10) 1
      [List.replicate 4 ((1:ℚ)/2), List.replicate 4 ((1:ℚ)/2),
        List.replicate 4 ((1:ℚ)/2)] Recording.initRec).total = 0 ∧
    (Recording.processChunks (some 10) 1
      [List.replicate 4 ((1:ℚ)/2), List.replicate 4 ((1:ℚ)/2),
        List.replicate 4 ((1:ℚ)/2)] Recording.initRec).recording = true ∧
    ((Recording.stopRecording (Recording.processChunks (some 10) 1
      [List.replicate 4 ((1:ℚ)/2), List.replicate 4 ((1:ℚ)/2),
        List.replicate 4 ((1:ℚ)/2)] Recording.initRec)).1.map
          List.length = some 12) := by
  refine ⟨?_, by decide, by decide, by decide, by decide⟩
  have hce : ⌈(1 : ℚ) * 10⌉ = 10 := by norm_num
  rw [Recording.maxSamplesFor, ratCeil_eq, hce]
  rfl

/-- C5: `stopRecording` returns the concatenated capture the first time
and `null` when called again (the chunk list was cleared); when nothing
was captured it returns `null` and only clears the recording flag. -/
theorem stopRecording_twice (s : Recording.RecState) :
    (s.chunks ≠ [] →
      (Recording.stopRecording s).1 = some s.chunks.flatten ∧
      (Recording.stopRecording (Recording.stopRecording s).2).1 = none) ∧
    (s.chunks = [] →
      (Recording.stopRecording s).1 = none ∧
      (Recording.stopRecording s).2 = { s with recording := false }) := by
  constructor
  · intro h
    constructor
    · simp [Recording.stopRecording, h]
    · simp [Recording.stopRecording, h]
  · intro h
    simp [Recording.stopRecording, h]

/-- C5 witness: a one-chunk capture returns the buffer, the second call
returns `null`. -/
theorem stopRecording_twice_witness :
    (([[(1:ℚ)/2]] : List (List ℚ)) ≠ []) ∧
    (Recording.stopRecording
      (Recording.stopRecording ⟨[[(1:ℚ)/2]], 1, [], true⟩).2).1 = none :=
  ⟨by decide, ((stopRecording_twice ⟨[[(1:ℚ)/2]], 1, [], true⟩).1 (by decide)).2⟩

/-- C9 (code evaluated at the failing input): for any positive
`samplesPerBin` and any non-empty first chunk, `updatePreview` computes
`totalBeforeChunk = recordingTotalSamples - chunk.length` before the
count is incremented, lands on a negative bin index, and throws on the
`bin.min` access: the preview stays empty, so no bin ever holds the
min/max of its sample range, and the skipped increment leaves the sample
count at 0. -/
theorem updatePreviewLoop_negIndex (spb fuel pos : ℕ) (preview : List Recording.Bin)
    (tbc : ℤ) (chunk : List ℚ) (hpos : pos < chunk.length)
    (hneg : (tbc + (pos : ℤ)) / (spb : ℤ) < 0) :
    Recording.updatePreviewLoop spb tbc chunk (fuel + 1) pos preview =
      (preview ++ List.replicate
        ((tbc + (pos : ℤ)) / (spb : ℤ) + 1 - preview.length).toNat ⟨0, 0⟩,
       true) := by
  rw [Recording.updatePreviewLoop]
  rw [if_pos hpos]
  rw [if_pos hneg]

theorem preview_first_chunk_crash (spb : ℕ) (chunk : List ℚ)
    (hspb : 0 < spb) (hc : chunk ≠ []) :
    (Recording.updatePreview spb 0 chunk []).2 = true ∧
    (Recording.updatePreview spb 0 chunk []).1 = [] ∧
    (Recording.onAudioProcess none spb chunk Recording.initRec).preview = [] ∧
    (Recording.onAudioProcess none spb chunk Recording.initRec).total = 0 := by
  have hlen : 0 < chunk.length := List.length_pos.mpr hc
  have hneg : (((0 : ℕ) : ℤ) - chunk.length + ((0 : ℕ) : ℤ)) / (spb : ℤ) < 0 := by
    apply Int.ediv_neg'
    · omega
    · exact_mod_cast hspb
  have hkey : Recording.updatePreview spb 0 chunk [] = ([], true) := by
    rw [Recording.updatePreview, updatePreviewLoop_negIndex spb chunk.length 0 []
      _ chunk hlen hneg]
    have htn : ((((0 : ℕ) : ℤ) - chunk.length + ((0 : ℕ) : ℤ)) / (spb : ℤ) + 1 -
        (([] : List Recording.Bin).length : ℤ)).toNat = 0 := by
      simp only [List.length_nil]
      omega
    rw [htn]
    simp
  refine ⟨by rw [hkey], by rw [hkey], ?_, ?_⟩ <;>
    simp [Recording.onAudioProcess, Recording.initRec, Recording.pushChunk, hkey]

/-- C9 witness: the crash at the concrete first chunk `[1/2]` with one
sample per bin. -/
theorem preview_first_chunk_crash_witness :
    0 < 1 ∧ ([(1:ℚ)/2] ≠ ([] : List ℚ)) ∧
    (Recording.onAudioProcess none 1 [(1:ℚ)/2] Recording.initRec).preview = [] :=
  ⟨by decide, by decide,
    (preview_first_chunk_crash 1 [(1:ℚ)/2] (by decide) (by decide)).2.2.1⟩

/-! ## Gestures (src/src/hooks/useGesture.ts) and the looper state machine
(`useLooper` in src/src/components/skeuomorphic/LooperView.tsx) -/

/-- The four recognized gestures. -/
inductive Gesture where
  | tap
  | doubleTap
  | hold
  | doubleTapHold
deriving DecidableEq, Repr

namespace Looper

/-- The five looper states. -/
inductive LState where
  | empty
  | recording
  | playing
  | overdubbing
  | stopped
deriving DecidableEq, Repr

/-- The engine's fixed sample rate (`new AudioContext({ sampleRate: 44100 })`). -/
def sampleRate : ℚ := 44100

/-- `AudioBuffer.duration = length / sampleRate` for a mono capture. -/
def bufDuration (b : List ℚ) : ℚ :=
  (b.length : ℚ) / sampleRate

/-- Modelled from the spec: `engine.mixBuffers`, called by the overdub
bounce in `useLooper`, is not present under `src/`; §4.3 specifies that
the overdub "is combined sample-wise with the composite (equal-weight
additive mix)", so it is modelled as the element-wise sum, keeping the
tail of the longer buffer. -/
def mixBuffers : List ℚ → List ℚ → List ℚ
  | [], ys => ys
  | x :: xs, [] => x :: xs
  | x :: xs, y :: ys => (x + y) :: mixBuffers xs ys

/-- Hook state of `useLooper`: looper state, layer count, loop duration,
undo flags and the composite/undo buffer refs. -/
structure St where
  state : LState
  layerCount : ℕ
  loopDuration : ℚ
  canUndo : Bool
  undoIsRedo : Bool
  composite : Option (List ℚ)
  undoBuf : Option (List ℚ)
deriving DecidableEq, Repr

/-- The hook's initial state. -/
def initSt : St :=
  ⟨.empty, 0, 0, false, false, none, none⟩

/-- `handleRecordingFirstComplete`, with the buffer `engine.stopRecording()`
returned passed in as `captured`. -/
def handleRecordingFirstComplete (captured : Option (List ℚ)) (s : St) : St :=
  match captured with
  | none => { s with state := .empty }
  | some b =>
      if b.length = 0 then { s with state := .empty }
      else
        { s with composite := some b, loopDuration := bufDuration b,
                 layerCount := 1, state := .playing }

/-- `handleOverdubComplete`: save the composite as the undo buffer and
bounce the overdub into it. -/
def handleOverdubComplete (captured : Option (List ℚ)) (s : St) : St :=
  match captured, s.composite with
  | some od, some comp =>
      { s with undoBuf := some comp, canUndo := true, undoIsRedo := false,
               composite := some (mixBuffers comp od),
               layerCount := s.layerCount + 1, state := .playing }
  | _, _ => { s with state := .playing }

/-- `startOverdub`: guarded on a present composite. -/
def startOverdub (s : St) : St :=
  match s.composite with
  | none => s
  | some _ => { s with state := .overdubbing }

/-- `handleGesture`.  `captured` is what `engine.stopRecording()` returns
at the steps that call it. -/
def handleGesture (g : Gesture) (captured : Option (List ℚ)) (s : St) : St :=
  match g with
  | .tap =>
      match s.state with
      | .empty => { s with state := .recording }
      | .recording => handleRecordingFirstComplete captured s
      | .playing => startOverdub s
      | .overdubbing => handleOverdubComplete captured s
      | .stopped => { s with state := .playing }
  | .hold =>
      match s.state with
      | .playing =>
          if s.canUndo then
            match s.undoBuf with
            | some _ =>
                { s with composite := s.undoBuf, undoBuf := s.composite,
                         undoIsRedo := !s.undoIsRedo }
            | none => s
          else s
      | _ => s
  | .doubleTap =>
      match s.state with
      | .playing => { s with state := .stopped }
      | .overdubbing => { s with state := .stopped }
      | _ => s
  | .doubleTapHold =>
      ⟨.empty, 0, 0, false, false, none, none⟩

end Looper

/-- C3: the gesture scenario tap, tap, tap, tap, hold, double-tap,
double-tap-hold from the empty looper: recording; playing with a defined
loop and one layer; overdubbing; playing with two layers and undo
available; the hold swap restores the pre-overdub composite without
touching the layer count; double-tap stops; and double-tap-hold resets
to empty from any state. -/
theorem looper_gesture_scenario (b1 b2 : List ℚ) (h1 : b1 ≠ []) :
    (Looper.handleGesture .tap none Looper.initSt).state = .recording ∧
    (let s2 := Looper.handleGesture .tap (some b1)
        (Looper.handleGesture .tap none Looper.initSt)
     s2.state = .playing ∧ 0 < s2.loopDuration ∧ s2.layerCount = 1 ∧
       s2.composite = some b1 ∧
     (let s3 := Looper.handleGesture .tap none s2
      s3.state = .overdubbing ∧
      (let s4 := Looper.handleGesture .tap (some b2) s3
       s4.state = .playing ∧ s4.layerCount = 2 ∧ s4.canUndo = true ∧
         s4.undoBuf = some b1 ∧
       (let s5 := Looper.handleGesture .hold none s4
        s5.composite = s2.composite ∧ s5.layerCount = s4.layerCount ∧
          s5.state = .playing ∧
        (let s6 := Looper.handleGesture .doubleTap none s5
         s6.state = .stopped ∧
         (let s7 := Looper.handleGesture .doubleTapHold none s6
          s7.state = .empty ∧ s7.layerCount = 0 ∧ s7.loopDuration = 0)))))) ∧
    (∀ (s : Looper.St) (c : Option (List ℚ)),
      Looper.handleGesture .doubleTapHold c s = Looper.initSt) := by
  have hlen : b1.length ≠ 0 := fun h => h1 (List.length_eq_zero.mp h)
  have hdur : 0 < Looper.bufDuration b1 := by
    apply div_pos
    · exact_mod_cast Nat.pos_of_ne_zero hlen
    · norm_num [Looper.sampleRate]
  have hs2 : Looper.handleGesture .tap (some b1)
      (Looper.handleGesture .tap none Looper.initSt) =
      ⟨.playing, 1, Looper.bufDuration b1, false, false, some b1, none⟩ := by
    simp [Looper.handleGesture, Looper.initSt,
      Looper.handleRecordingFirstComplete, hlen]
  refine ⟨rfl, ?_, fun s c => rfl⟩
  rw [hs2]
  exact ⟨rfl, hdur, rfl, rfl, rfl, rfl, rfl, rfl, rfl, rfl, rfl, rfl, rfl, rfl, rfl, rfl⟩

/-- C3 witness: the scenario run with concrete one-sample buffers. -/
theorem looper_gesture_scenario_witness :
    ([(1:ℚ)/2] ≠ ([] : List ℚ)) ∧
    (Looper.handleGesture .tap none Looper.initSt).state = .recording :=
  ⟨by decide, (looper_gesture_scenario [(1:ℚ)/2] [(1:ℚ)/4] (by decide)).1⟩

namespace GestureRec

/-- `DOUBLE_TAP_WINDOW = 300` ms. -/
def doubleTapWindow : ℤ := 300

/-- `HOLD_DURATION = 1500` ms. -/
def holdDuration : ℤ := 1500

/-- Recognizer state (`stateRef` in `useGesture`), with pending timers
carried as their due times; `holdIsDouble` records which event the
pending hold timer will emit. -/
structure St where
  isDown : Bool
  downTime : ℤ
  hadRecentTap : Bool
  tapTimerDue : Option ℤ
  holdTimerDue : Option ℤ
  holdIsDouble : Bool
deriving DecidableEq, Repr

def initSt : St :=
  ⟨false, 0, false, none, none, false⟩

/-- `handleKeyDown` at clock time `t` (repeat events already filtered):
emits `double-tap` instantly when a tap completed within the window,
else emits `tap` instantly; either way starts a 1500 ms hold timer. -/
def keyDown (t : ℤ) (s : St) : St × List Gesture :=
  if s.isDown then (s, [])
  else if s.hadRecentTap then
    (⟨true, t, false, none, some (t + holdDuration), true⟩, [.doubleTap])
  else
    ({ s with isDown := true, downTime := t,
              holdTimerDue := some (t + holdDuration), holdIsDouble := false },
     [.tap])

/-- `handleKeyUp` at clock time `t`: cancels the hold timer; a release at
or past the hold duration does no tap bookkeeping, a shorter press opens
the 300 ms double-tap window. -/
def keyUp (t : ℤ) (s : St) : St × List Gesture :=
  if s.isDown = false then (s, [])
  else
    let duration := t - s.downTime
    if duration ≥ holdDuration then
      ({ s with isDown := false, holdTimerDue := none, hadRecentTap := false }, [])
    else
      ({ s with isDown := false, holdTimerDue := none, hadRecentTap := true,
                tapTimerDue := some (t + doubleTapWindow) }, [])

/-- The hold-timer callback: emits `hold` or `double-tap-hold`. -/
def fireHold (s : St) : St × List Gesture :=
  ({ s with holdTimerDue := none },
   [if s.holdIsDouble then .doubleTapHold else .hold])

/-- The tap-timer callback: closes the double-tap window. -/
def fireTap (s : St) : St × List Gesture :=
  ({ s with hadRecentTap := false, tapTimerDue := none }, [])

/-- Fire the timers whose due time is at or before `t` (a timer due at
the same instant as an input event runs first).  At every reachable
state at most one timer is pending, and firing one never arms another,
so a single pass over the two timers suffices. -/
def fireDue (t : ℤ) (s : St) : St × List Gesture :=
  let step1 := match s.holdTimerDue with
    | some d => if d ≤ t then fireHold s else (s, [])
    | none => (s, [])
  let step2 := match step1.1.tapTimerDue with
    | some d => if d ≤ t then fireTap step1.1 else (step1.1, [])
    | none => (step1.1, [])
  (step2.1, step1.2 ++ step2.2)

inductive KeyEv where
  | down
  | up
deriving DecidableEq, Repr

/-- Process a time-ordered list of key events, firing due timers before
each event. -/
def processEvents : St → List (ℤ × KeyEv) → St × List Gesture
  | s, [] => (s, [])
  | s, (t, e) :: rest =>
      let fired := fireDue t s
      let handled := match e with
        | .down => keyDown t fired.1
        | .up => keyUp t fired.1
      let tail := processEvents handled.1 rest
      (tail.1, fired.2 ++ handled.2 ++ tail.2)

/-- A single press at time 0 released at time `r`, with no prior tap. -/
def pressRelease (r : ℤ) : St × List Gesture :=
  processEvents initSt [(0, .down), (r, .up)]

end GestureRec

/-- C4 (counterexample): a key pressed at 0 and held to exactly 1500 ms
emits `tap` (immediately on press, by design) and then `hold` — the
emitted sequence contains `tap`, contradicting the claim that a 1500+ ms
press emits "hold and no tap". -/
theorem gesture_hold_counterexample :
    (GestureRec.pressRelease 1500).2 = [Gesture.tap, Gesture.hold] ∧
    Gesture.tap ∈ (GestureRec.pressRelease 1500).2 := by
  refine ⟨by decide, by decide⟩

/-- C4 (amended): for a single press at time 0 with no prior tap, `tap`
fires at the instant of the press in every case; a release at any time
strictly before 1500 ms (such as 1499 ms) emits only `tap` and no
`hold`, and opens the double-tap window; holding to 1500 ms or more
additionally emits `hold`, and the release performs no further tap
bookkeeping (no double-tap window opens). -/
theorem gesture_press_release (r : ℤ) (hr : 0 ≤ r) :
    (r < 1500 →
      (GestureRec.pressRelease r).2 = [Gesture.tap] ∧
      (GestureRec.pressRelease r).1.hadRecentTap = true) ∧
    (1500 ≤ r →
      (GestureRec.pressRelease r).2 = [Gesture.tap, Gesture.hold] ∧
      (GestureRec.pressRelease r).1.hadRecentTap = false ∧
      (GestureRec.pressRelease r).1.tapTimerDue = none) := by
  constructor
  · intro hlt
    have h1 : ¬ ((1500 : ℤ) ≤ r) := by omega
    constructor <;>
      simp [GestureRec.pressRelease, GestureRec.processEvents,
        GestureRec.fireDue, GestureRec.keyDown, GestureRec.keyUp,
        GestureRec.initSt, GestureRec.fireHold, GestureRec.fireTap,
        GestureRec.holdDuration, GestureRec.doubleTapWindow, h1]
  · intro hge
    have h2 : (1500 : ℤ) ≤ r := by omega
    refine ⟨?_, ?_, ?_⟩ <;>
      simp [GestureRec.pressRelease, GestureRec.processEvents,
        GestureRec.fireDue, GestureRec.keyDown, GestureRec.keyUp,
        GestureRec.initSt, GestureRec.fireHold, GestureRec.fireTap,
        GestureRec.holdDuration, GestureRec.doubleTapWindow, h2]

/-- C4 witness: the two boundary instants — release at exactly 1499 ms
emits only `tap`; release at exactly 1500 ms adds `hold` with no tap
bookkeeping. -/
theorem gesture_press_release_witness :
    ((0 : ℤ) ≤ 1499 ∧ (GestureRec.pressRelease 1499).2 = [Gesture.tap]) ∧
    ((0 : ℤ) ≤ 1500 ∧
      (GestureRec.pressRelease 1500).1.hadRecentTap = false) :=
  ⟨⟨by decide, ((gesture_press_release 1499 (by decide)).1 (by decide)).1⟩,
   ⟨by decide, ((gesture_press_release 1500 (by decide)).2 (by decide)).2.1⟩⟩

/-! ## AudioEngine variant of src/unnamed/part_006
(`playAll` with shared-loop padding, `exportMix`, count-in) -/

namespace EngineV2

/-- An `AudioBuffer`: one sample list per channel plus its sample rate.
`len` is the buffer's sample length (`AudioBuffer.length`), read off the
first channel. -/
structure Buf where
  data : List (List ℚ)
  rate : ℚ
deriving DecidableEq, Repr

def Buf.numberOfChannels (b : Buf) : ℕ :=
  b.data.length

def Buf.len (b : Buf) : ℕ :=
  (b.data.headD []).length

/-- `AudioBuffer.duration = length / sampleRate`. -/
def Buf.duration (b : Buf) : ℚ :=
  (b.len : ℚ) / b.rate

/-- Well-formedness of a real `AudioBuffer`: at least one channel, all
channels of the same length. -/
def Buf.wf (b : Buf) : Prop :=
  b.data ≠ [] ∧ ∀ c ∈ b.data, c.length = b.len

structure Track where
  buffer : Option Buf
  volume : ℚ
  pan : ℚ
  muted : Bool
  solo : Bool
deriving DecidableEq, Repr

/-- `tracks.some(t => t.solo)`. -/
def hasSolo (tracks : List Track) : Bool :=
  tracks.any (·.solo)

/-- `padBuffer`: returns the original buffer when already long enough,
else a fresh zero-filled buffer of `targetSamples` samples per channel
with the original channel data copied in at offset 0. -/
def padBuffer (b : Buf) (targetSamples : ℕ) : Buf :=
  if targetSamples ≤ b.len then b
  else ⟨b.data.map (fun c => c ++ List.replicate (targetSamples - c.length) 0), b.rate⟩

/-- `Math.max(0, ...tracks.filter(t => t.buffer).map(t => t.buffer.duration))`. -/
def maxTrackDuration (tracks : List Track) : ℚ :=
  tracks.foldl
    (fun m t => match t.buffer with
      | some b => max m b.duration
      | none => m) 0

/-- The `loopDuration` field after `playAll`: overwritten by the longest
track duration whenever that is positive, else the stored value. -/
def playAllLoopDuration (tracks : List Track) (old : ℚ) : ℚ :=
  if 0 < maxTrackDuration tracks then maxTrackDuration tracks else old

/-- `targetSamples = loopDuration > 0 ? Math.ceil(loopDuration * sampleRate) : 0`. -/
def playAllTargetSamples (tracks : List Track) (old R : ℚ) : ℕ :=
  if 0 < playAllLoopDuration tracks old then
    (ratCeil (playAllLoopDuration tracks old * R)).toNat
  else 0

/-- One `AudioBufferSourceNode` with its gain/pan chain, as `playAll`
builds it. -/
structure PlaySource where
  buffer : Buf
  gain : ℚ
  pan : ℚ
  loopPoints : Option (ℚ × ℚ)
  startPos : ℚ
deriving DecidableEq, Repr

/-- The source `playAll` creates for one track holding buffer `b`. -/
def mkPlaySource (loop : Bool) (ld : ℚ) (target : ℕ) (hasS : Bool)
    (offset : ℚ) (t : Track) (b : Buf) : PlaySource :=
  { buffer := if 0 < target then padBuffer b target else b
    gain := if (if hasS then t.solo else !t.muted) then t.volume else 0
    pan := t.pan
    loopPoints := if loop = true ∧ 0 < ld then some (0, ld) else none
    startPos := if 0 < ld then jsMod offset ld else jsMod offset b.duration }

/-- `playAll`, per input track: `none` for tracks without a buffer
(`if (!track.buffer) continue`), else the constructed source. -/
def playAllPerTrack (tracks : List Track) (loop : Bool) (old R offset : ℚ) :
    List (Option PlaySource) :=
  tracks.map (fun t =>
    t.buffer.map
      (mkPlaySource loop (playAllLoopDuration tracks old)
        (playAllTargetSamples tracks old R) (hasSolo tracks) offset t))

/-- One source of the offline render of `exportMix`. -/
structure ExportSource where
  buffer : Buf
  gain : ℚ
  pan : ℚ
deriving DecidableEq, Repr

/-- `exportMix`, per input track: tracks without a buffer or failing the
solo/mute resolution are skipped entirely. -/
def exportPerTrack (tracks : List Track) : List (Option ExportSource) :=
  tracks.map (fun t =>
    match t.buffer with
    | none => none
    | some b =>
        if (if hasSolo tracks then t.solo else !t.muted) then
          some ⟨b, t.volume, t.pan⟩
        else none)

/-- A track is audible during `playAll` playback: a source exists for it
and its gain is nonzero. -/
def playAudibleAt (tracks : List Track) (loop : Bool) (old R offset : ℚ)
    (i : ℕ) : Prop :=
  ∃ src, (playAllPerTrack tracks loop old R offset)[i]? = some (some src) ∧
    src.gain ≠ 0

/-- A track is audible in the exported mix: it is rendered and its gain
is nonzero. -/
def exportAudibleAt (tracks : List Track) (i : ℕ) : Prop :=
  ∃ src, (exportPerTrack tracks)[i]? = some (some src) ∧ src.gain ≠ 0

theorem init_le_foldlMax (l : List Track) (a : ℚ) :
    a ≤ l.foldl
      (fun m t => match t.buffer with
        | some b => max m b.duration
        | none => m) a := by
  induction l generalizing a with
  | nil => exact le_refl a
  | cons t l ih =>
      refine le_trans ?_ (ih _)
      show a ≤ (match t.buffer with
        | some b => max a b.duration
        | none => a)
      cases t.buffer with
      | none => exact le_refl a
      | some b => exact le_max_left _ _

theorem mem_le_foldlMax (l : List Track) {t : Track} {b : Buf}
    (ht : t ∈ l) (hb : t.buffer = some b) (a : ℚ) :
    b.duration ≤ l.foldl
      (fun m t => match t.buffer with
        | some b => max m b.duration
        | none => m) a := by
  induction l generalizing a with
  | nil => cases ht
  | cons u l ih =>
      rcases List.mem_cons.mp ht with rfl | hmem
      · refine le_trans ?_ (init_le_foldlMax l _)
        simp only [List.foldl_cons, hb]
        exact le_max_right _ _
      · exact ih hmem _

theorem duration_le_maxTrackDuration {tracks : List Track} {t : Track}
    {b : Buf} (ht : t ∈ tracks) (hb : t.buffer = some b) :
    b.duration ≤ maxTrackDuration tracks :=
  mem_le_foldlMax tracks ht hb 0

theorem padBuffer_rate (b : Buf) (t : ℕ) : (padBuffer b t).rate = b.rate := by
  unfold padBuffer
  split <;> rfl

theorem padBuffer_data {b : Buf} (hwf : b.wf) (t : ℕ) :
    (padBuffer b t).data =
      b.data.map (fun c => c ++ List.replicate (max t b.len - b.len) 0) := by
  unfold padBuffer
  by_cases h : t ≤ b.len
  · rw [if_pos h, max_eq_right h, Nat.sub_self]
    simp
  · rw [if_neg h]
    show b.data.map _ = b.data.map _
    apply List.map_congr_left
    intro c hc
    rw [hwf.2 c hc, max_eq_left (le_of_not_le h)]

theorem padBuffer_len {b : Buf} (hwf : b.wf) (t : ℕ) :
    (padBuffer b t).len = max t b.len := by
  unfold padBuffer
  by_cases h : t ≤ b.len
  · rw [if_pos h, max_eq_right h]
  · rw [if_neg h]
    obtain ⟨c0, rest, hdata⟩ : ∃ c0 rest, b.data = c0 :: rest := by
      cases hd : b.data with
      | nil => exact absurd hd hwf.1
      | cons c0 rest => exact ⟨c0, rest, rfl⟩
    have hc0 : c0.length = b.len := hwf.2 c0 (by rw [hdata]; exact List.mem_cons_self _ _)
    show ((b.data.map fun c => c ++ List.replicate (t - c.length) 0).headD []).length
        = max t b.len
    rw [hdata]
    simp only [List.map_cons, List.headD_cons, List.length_append,
      List.length_replicate, hc0]
    omega

end EngineV2

/-- C6: `playAll` (part_006 variant) sets the shared loop length to the
maximum duration among the tracks that carry a buffer, for every stored
`loopDuration`; every created source's buffer is the original padded with
trailing silence up to the shared target sample count, so each source's
duration is at least the shared loop length and `loopEnd` (set to the
shared length when looping) is never clamped; padding keeps every
original channel as a prefix and appends only zeros. -/
theorem playAll_shared_loop_padding (tracks : List EngineV2.Track)
    (loop : Bool) (old R offset : ℚ) (hR : 0 < R)
    (hwf : ∀ t ∈ tracks, ∀ b, t.buffer = some b → b.wf ∧ b.rate = R)
    (hpos : ∃ t ∈ tracks, ∃ b, t.buffer = some b ∧ 0 < b.len) :
    EngineV2.playAllLoopDuration tracks old = EngineV2.maxTrackDuration tracks ∧
    (∀ t ∈ tracks, ∀ b, t.buffer = some b →
      (EngineV2.padBuffer b (EngineV2.playAllTargetSamples tracks old R)).data =
        b.data.map (fun c => c ++ List.replicate
          (max (EngineV2.playAllTargetSamples tracks old R) b.len - b.len) 0) ∧
      EngineV2.playAllLoopDuration tracks old ≤
        (EngineV2.padBuffer b (EngineV2.playAllTargetSamples tracks old R)).duration) ∧
    (∀ (i : ℕ) (t : EngineV2.Track) (b : EngineV2.Buf),
      tracks[i]? = some t → t.buffer = some b →
      ∃ src, (EngineV2.playAllPerTrack tracks loop old R offset)[i]? =
          some (some src) ∧
        src.buffer = EngineV2.padBuffer b (EngineV2.playAllTargetSamples tracks old R) ∧
        (loop = true →
          src.loopPoints = some (0, EngineV2.maxTrackDuration tracks))) := by
  obtain ⟨t0, ht0, b0, hb0, hlen0⟩ := hpos
  have hwf0 := hwf t0 ht0 b0 hb0
  have hdur0 : 0 < b0.duration := by
    rw [EngineV2.Buf.duration, hwf0.2]
    apply div_pos _ hR
    exact_mod_cast hlen0
  have hmaxpos : 0 < EngineV2.maxTrackDuration tracks :=
    lt_of_lt_of_le hdur0 (EngineV2.duration_le_maxTrackDuration ht0 hb0)
  have hld : EngineV2.playAllLoopDuration tracks old =
      EngineV2.maxTrackDuration tracks := by
    rw [EngineV2.playAllLoopDuration, if_pos hmaxpos]
  have hxpos : 0 < EngineV2.maxTrackDuration tracks * R := mul_pos hmaxpos hR
  have hceil : 0 < ⌈EngineV2.maxTrackDuration tracks * R⌉ := Int.ceil_pos.mpr hxpos
  have hT : EngineV2.playAllTargetSamples tracks old R =
      ⌈EngineV2.maxTrackDuration tracks * R⌉.toNat := by
    rw [EngineV2.playAllTargetSamples, if_pos (by rw [hld]; exact hmaxpos),
      hld, ratCeil_eq]
  have hTpos : 0 < EngineV2.playAllTargetSamples tracks old R := by
    rw [hT]
    omega
  have hTQ : EngineV2.maxTrackDuration tracks * R ≤
      ((EngineV2.playAllTargetSamples tracks old R : ℕ) : ℚ) := by
    rw [hT]
    have h2 : ((⌈EngineV2.maxTrackDuration tracks * R⌉.toNat : ℕ) : ℤ) =
        ⌈EngineV2.maxTrackDuration tracks * R⌉ := Int.toNat_of_nonneg hceil.le
    calc EngineV2.maxTrackDuration tracks * R
        ≤ ((⌈EngineV2.maxTrackDuration tracks * R⌉ : ℤ) : ℚ) := Int.le_ceil _
      _ = ((⌈EngineV2.maxTrackDuration tracks * R⌉.toNat : ℕ) : ℚ) := by
          exact_mod_cast congrArg (fun z : ℤ => (z : ℚ)) h2.symm
  have hdurpad : ∀ t ∈ tracks, ∀ b, t.buffer = some b →
      EngineV2.playAllLoopDuration tracks old ≤
        (EngineV2.padBuffer b (EngineV2.playAllTargetSamples tracks old R)).duration := by
    intro t ht b hb
    obtain ⟨hbwf, hbrate⟩ := hwf t ht b hb
    rw [EngineV2.Buf.duration, EngineV2.padBuffer_len hbwf,
      EngineV2.padBuffer_rate, hbrate, hld]
    rw [le_div_iff₀ hR]
    refine le_trans hTQ ?_
    exact_mod_cast Nat.cast_le.mpr (le_max_left _ _)
  refine ⟨hld, fun t ht b hb => ⟨EngineV2.padBuffer_data (hwf t ht b hb).1 _,
    hdurpad t ht b hb⟩, ?_⟩
  intro i t b hi hb
  refine ⟨EngineV2.mkPlaySource loop (EngineV2.playAllLoopDuration tracks old)
    (EngineV2.playAllTargetSamples tracks old R) (EngineV2.hasSolo tracks)
    offset t b, ?_, ?_, ?_⟩
  · rw [EngineV2.playAllPerTrack, List.getElem?_map, hi, Option.map_some', hb,
      Option.map_some']
  · rw [EngineV2.mkPlaySource]
    simp only [if_pos hTpos]
  · intro hloop
    rw [EngineV2.mkPlaySource]
    simp only [hloop, hld, true_and, if_pos hmaxpos]

/-- C6 witness: two mono tracks at rate 1, lengths 3 and 1, stored
duration 99 — the shared loop length comes from the longest track. -/
theorem playAll_shared_loop_padding_witness :
    ((0 : ℚ) < 1) ∧
    (EngineV2.playAllLoopDuration
      [⟨some ⟨[[1, 2, 3]], 1⟩, 1, 0, false, false⟩,
       ⟨some ⟨[[5]], 1⟩, 1, 0, false, false⟩] 99 =
      EngineV2.maxTrackDuration
      [⟨some ⟨[[1, 2, 3]], 1⟩, 1, 0, false, false⟩,
       ⟨some ⟨[[5]], 1⟩, 1, 0, false, false⟩]) :=
  ⟨by norm_num,
    (playAll_shared_loop_padding
      [⟨some ⟨[[1, 2, 3]], 1⟩, 1, 0, false, false⟩,
       ⟨some ⟨[[5]], 1⟩, 1, 0, false, false⟩]
      true 99 1 0 (by norm_num)
      (by
        intro t ht b hb
        rcases List.mem_cons.mp ht with rfl | ht2
        · obtain rfl := Option.some.inj hb
          exact ⟨⟨by simp, by decide⟩, rfl⟩
        rcases List.mem_cons.mp ht2 with rfl | ht3
        · obtain rfl := Option.some.inj hb
          exact ⟨⟨by simp, by decide⟩, rfl⟩
        · cases ht3)
      ⟨⟨some ⟨[[1, 2, 3]], 1⟩, 1, 0, false, false⟩, List.mem_cons_self _ _,
        ⟨[[1, 2, 3]], 1⟩, rfl, by decide⟩).1⟩

namespace EngineV2

theorem gain_ne_zero_iff (v : ℚ) (c : Bool) :
    (if c then v else 0) ≠ 0 ↔ c = true ∧ v ≠ 0 := by
  cases c <;> simp

theorem resolveRule_iff (hasS solo muted : Bool) :
    (if hasS then solo else !muted) = true ↔
      (hasS = true → solo = true) ∧ (hasS = false → muted = false) := by
  cases hasS <;> cases solo <;> cases muted <;> simp

theorem mkPlaySource_gain (loop : Bool) (ld : ℚ) (target : ℕ) (hasS : Bool)
    (offset : ℚ) (t : Track) (b : Buf) :
    (mkPlaySource loop ld target hasS offset t b).gain =
      if (if hasS then t.solo else !t.muted) then t.volume else 0 := rfl

theorem playAudibleAt_iff (tracks : List Track) (loop : Bool)
    (old R offset : ℚ) (i : ℕ) :
    playAudibleAt tracks loop old R offset i ↔
      ∃ t b, tracks[i]? = some t ∧ t.buffer = some b ∧ t.volume ≠ 0 ∧
        (hasSolo tracks = true → t.solo = true) ∧
        (hasSolo tracks = false → t.muted = false) := by
  unfold playAudibleAt playAllPerTrack
  rw [List.getElem?_map]
  cases hi : tracks[i]? with
  | none => simp
  | some t =>
      cases hb : t.buffer with
      | none => simp [hb]
      | some b =>
          simp only [Option.map_some', hb]
          by_cases hc : (if hasSolo tracks then t.solo else !t.muted) = true
          · constructor
            · rintro ⟨src, hsrc, hg⟩
              obtain rfl := Option.some.inj (Option.some.inj hsrc)
              rw [mkPlaySource_gain, if_pos hc] at hg
              exact ⟨t, b, rfl, hb, hg, (resolveRule_iff _ _ _).mp hc⟩
            · rintro ⟨t', b', ht', hb', hv, hrule⟩
              obtain rfl := Option.some.inj ht'
              rw [hb] at hb'
              obtain rfl := Option.some.inj hb'
              refine ⟨_, rfl, ?_⟩
              rw [mkPlaySource_gain, if_pos hc]
              exact hv
          · constructor
            · rintro ⟨src, hsrc, hg⟩
              obtain rfl := Option.some.inj (Option.some.inj hsrc)
              rw [mkPlaySource_gain, if_neg hc] at hg
              exact absurd rfl hg
            · rintro ⟨t', b', ht', hb', hv, hrule⟩
              obtain rfl := Option.some.inj ht'
              exact absurd ((resolveRule_iff _ _ _).mpr hrule) hc

theorem exportAudibleAt_iff (tracks : List Track) (i : ℕ) :
    exportAudibleAt tracks i ↔
      ∃ t b, tracks[i]? = some t ∧ t.buffer = some b ∧ t.volume ≠ 0 ∧
        (hasSolo tracks = true → t.solo = true) ∧
        (hasSolo tracks = false → t.muted = false) := by
  unfold exportAudibleAt exportPerTrack
  rw [List.getElem?_map]
  cases hi : tracks[i]? with
  | none => simp
  | some t =>
      cases hb : t.buffer with
      | none => simp [hb]
      | some b =>
          simp only [Option.map_some', hb]
          by_cases hc : (if hasSolo tracks then t.solo else !t.muted) = true
          · rw [if_pos hc]
            constructor
            · rintro ⟨src, hsrc, hg⟩
              obtain rfl := Option.some.inj (Option.some.inj hsrc)
              exact ⟨t, b, rfl, hb, hg, (resolveRule_iff _ _ _).mp hc⟩
            · rintro ⟨t', b', ht', hb', hv, hrule⟩
              obtain rfl := Option.some.inj ht'
              rw [hb] at hb'
              obtain rfl := Option.some.inj hb'
              exact ⟨_, rfl, hv⟩
          · rw [if_neg hc]
            constructor
            · rintro ⟨src, hsrc, -⟩
              cases Option.some.inj hsrc
            · rintro ⟨t', b', ht', hb', hv, hrule⟩
              obtain rfl := Option.some.inj ht'
              exact absurd ((resolveRule_iff _ _ _).mpr hrule) hc

end EngineV2

/-- C7: for every track list, a track is audible in the exported mix
exactly when it is audible during `playAll` playback, and both reduce to
the one solo/mute rule resolved per call: when any track is soloed
exactly the soloed tracks (with nonzero volume and a buffer) sound,
otherwise exactly the unmuted ones. -/
theorem export_matches_playback_audibility (tracks : List EngineV2.Track)
    (loop : Bool) (old R offset : ℚ) (i : ℕ) :
    (EngineV2.exportAudibleAt tracks i ↔
      EngineV2.playAudibleAt tracks loop old R offset i) ∧
    (EngineV2.playAudibleAt tracks loop old R offset i ↔
      ∃ t b, tracks[i]? = some t ∧ t.buffer = some b ∧ t.volume ≠ 0 ∧
        (EngineV2.hasSolo tracks = true → t.solo = true) ∧
        (EngineV2.hasSolo tracks = false → t.muted = false)) :=
  ⟨(EngineV2.exportAudibleAt_iff tracks i).trans
      (EngineV2.playAudibleAt_iff tracks loop old R offset i).symm,
   EngineV2.playAudibleAt_iff tracks loop old R offset i⟩

namespace EngineV2

/-- Whether `scheduleClick(time, isDownbeat, forceAudible)` produces a
sound: it returns early only when the metronome is visual-only and the
click is not forced. -/
def clickSound (metAudible force : Bool) : Bool :=
  metAudible || force

/-- Count-in scheduler state: the running flag (`countInIntervalId` not
null), the `beatIndex` counter, `totalBeats`, the sounds of the clicks
scheduled so far, and how many times `onDone` has fired. -/
structure CIState where
  active : Bool
  beatIndex : ℕ
  totalBeats : ℕ
  clicksSound : List Bool
  doneCount : ℕ
deriving DecidableEq, Repr

/-- `startCountIn`: schedules the first click immediately (forced
audible), sets `beatIndex = 1` and starts the per-beat interval. -/
def startCountIn (beatsPerBar : ℕ) (metAudible : Bool) : CIState :=
  ⟨true, 1, beatsPerBar, [clickSound metAudible true], 0⟩

/-- One firing of the count-in interval: when all beats are done, cancel
the interval and invoke `onDone`; otherwise schedule the next forced
click. -/
def countInTick (metAudible : Bool) (s : CIState) : CIState :=
  if s.active = false then s
  else if s.totalBeats ≤ s.beatIndex then
    { s with active := false, doneCount := s.doneCount + 1 }
  else
    { s with clicksSound := s.clicksSound ++ [clickSound metAudible true],
             beatIndex := s.beatIndex + 1 }

/-- `stopCountIn`: clears the interval. -/
def stopCountIn (s : CIState) : CIState :=
  { s with active := false }

def runTicks (metAudible : Bool) : ℕ → CIState → CIState
  | 0, s => s
  | n + 1, s => countInTick metAudible (runTicks metAudible n s)

theorem runTicks_inactive (metA : Bool) (s : CIState) (h : s.active = false) :
    ∀ n, runTicks metA n s = s := by
  intro n
  induction n with
  | zero => rfl
  | succ n ih =>
      show countInTick metA (runTicks metA n s) = s
      rw [ih]
      unfold countInTick
      rw [if_pos h]

theorem runTicks_progress (metA : Bool) (b : ℕ) :
    ∀ k, k < b → runTicks metA k (startCountIn b metA) =
      ⟨true, k + 1, b, List.replicate (k + 1) true, 0⟩ := by
  intro k
  induction k with
  | zero =>
      intro _
      show startCountIn b metA = _
      simp [startCountIn, clickSound]
  | succ k ih =>
      intro hk
      show countInTick metA (runTicks metA k (startCountIn b metA)) = _
      rw [ih (by omega)]
      unfold countInTick
      rw [if_neg (by simp), if_neg (by simp; omega)]
      simp [clickSound, List.replicate_succ']

theorem runTicks_done (metA : Bool) (b : ℕ) (hb : 1 ≤ b) :
    ∀ n, b ≤ n → runTicks metA n (startCountIn b metA) =
      ⟨false, b, b, List.replicate b true, 1⟩ := by
  have hbase : runTicks metA b (startCountIn b metA) =
      ⟨false, b, b, List.replicate b true, 1⟩ := by
    obtain ⟨k, rfl⟩ : ∃ k, b = k + 1 := ⟨b - 1, by omega⟩
    show countInTick metA (runTicks metA k (startCountIn (k + 1) metA)) = _
    rw [runTicks_progress metA (k + 1) k (by omega)]
    unfold countInTick
    simp
  have haux : ∀ m, runTicks metA (b + m) (startCountIn b metA) =
      ⟨false, b, b, List.replicate b true, 1⟩ := by
    intro m
    induction m with
    | zero => exact hbase
    | succ m ih =>
        show countInTick metA (runTicks metA (b + m) (startCountIn b metA)) = _
        rw [ih]
        unfold countInTick
        rw [if_pos rfl]
  intro n hn
  obtain ⟨m, rfl⟩ : ∃ m, n = b + m := ⟨n - b, by omega⟩
  exact haux m

end EngineV2

/-- C8: a count-in over `b ≥ 1` beats per bar schedules exactly `b`
clicks, every one audible regardless of the metronome's audible toggle;
`onDone` fires exactly once, on the tick after the last beat, and never
before; `stopCountIn` at any earlier point freezes the state: no further
clicks are scheduled and `onDone` never fires. -/
theorem countIn_one_bar (b : ℕ) (hb : 1 ≤ b) (metAudible : Bool) :
    (∀ n, b ≤ n →
      (EngineV2.runTicks metAudible n
        (EngineV2.startCountIn b metAudible)).clicksSound.length = b ∧
      (∀ c ∈ (EngineV2.runTicks metAudible n
        (EngineV2.startCountIn b metAudible)).clicksSound, c = true) ∧
      (EngineV2.runTicks metAudible n
        (EngineV2.startCountIn b metAudible)).doneCount = 1) ∧
    (∀ n, n < b →
      (EngineV2.runTicks metAudible n
        (EngineV2.startCountIn b metAudible)).clicksSound.length = n + 1 ∧
      (∀ c ∈ (EngineV2.runTicks metAudible n
        (EngineV2.startCountIn b metAudible)).clicksSound, c = true) ∧
      (EngineV2.runTicks metAudible n
        (EngineV2.startCountIn b metAudible)).doneCount = 0) ∧
    (∀ k m, k < b →
      (EngineV2.runTicks metAudible m (EngineV2.stopCountIn
        (EngineV2.runTicks metAudible k
          (EngineV2.startCountIn b metAudible)))).doneCount = 0 ∧
      (EngineV2.runTicks metAudible m (EngineV2.stopCountIn
        (EngineV2.runTicks metAudible k
          (EngineV2.startCountIn b metAudible)))).clicksSound =
        (EngineV2.runTicks metAudible k
          (EngineV2.startCountIn b metAudible)).clicksSound) := by
  refine ⟨?_, ?_, ?_⟩
  · intro n hn
    rw [EngineV2.runTicks_done metAudible b hb n hn]
    refine ⟨by simp, ?_, rfl⟩
    intro c hc
    exact List.eq_of_mem_replicate hc
  · intro n hn
    rw [EngineV2.runTicks_progress metAudible b n hn]
    refine ⟨by simp, ?_, rfl⟩
    intro c hc
    exact List.eq_of_mem_replicate hc
  · intro k m hk
    have hstop : (EngineV2.stopCountIn (EngineV2.runTicks metAudible k
        (EngineV2.startCountIn b metAudible))).active = false := rfl
    rw [EngineV2.runTicks_inactive metAudible _ hstop m]
    rw [EngineV2.runTicks_progress metAudible b k hk]
    exact ⟨rfl, rfl⟩

/-- C8 witness: four beats per bar with the metronome set to visual-only:
after ten ticks all four clicks sounded and the completion fired once;
canceling after two ticks freezes at three clicks with no completion. -/
theorem countIn_one_bar_witness :
    (1 ≤ 4 ∧
      (EngineV2.runTicks false 10 (EngineV2.startCountIn 4 false)).doneCount = 1) ∧
    ((2 : ℕ) < 4 ∧
      (EngineV2.runTicks false 5 (EngineV2.stopCountIn
        (EngineV2.runTicks false 2 (EngineV2.startCountIn 4 false)))).doneCount = 0) :=
  ⟨⟨by decide, ((countIn_one_bar 4 (by decide) false).1 10 (by decide)).2.2⟩,
   ⟨by decide, ((countIn_one_bar 4 (by decide) false).2.2 2 5 (by decide)).1⟩⟩

namespace Serialization

/-- `createBufferFromData(channelData, sampleRate)` from
src/src/audio/AudioEngine.ts (identical in both engine variants):
`ctx.createBuffer(channelData.length, channelData[0].length, sampleRate)`
reads `channelData[0]` without a guard — on an empty list `channelData[0]`
is `undefined` and the `.length` access throws (`none`).  The zero-filled
buffer then receives every channel via `Float32Array.set`, which throws a
`RangeError` when a source row is longer than channel 0 (`none`) and
leaves trailing zeros when it is shorter.  Host-API nominal-range
rejections of `createBuffer` itself are not modelled. -/
def createBufferFromData (channelData : List (List ℚ)) (rate : ℚ) :
    Option EngineV2.Buf :=
  match channelData with
  | [] => none
  | c0 :: rest =>
      if (c0 :: rest).all (fun c => c.length ≤ c0.length) then
        some ⟨(c0 :: rest).map (fun c => c ++ List.replicate (c0.length - c.length) 0),
          rate⟩
      else none

end Serialization

/-- C10: for a non-empty channel list with all channels of equal length,
`createBufferFromData` succeeds and returns a buffer with
`numberOfChannels = channelData.length`, length `channelData[0].length`,
the given sample rate, and the channel samples copied unchanged; for an
empty channel list the unguarded `channelData[0]` access fails. -/
theorem createBufferFromData_spec (channelData : List (List ℚ)) (rate : ℚ)
    (hne : channelData ≠ [])
    (heq : ∀ c ∈ channelData, c.length = (channelData.headD []).length) :
    (∃ buf, Serialization.createBufferFromData channelData rate = some buf ∧
      buf.numberOfChannels = channelData.length ∧
      buf.len = (channelData.headD []).length ∧
      buf.rate = rate ∧
      buf.data = channelData) ∧
    (∀ r : ℚ, Serialization.createBufferFromData [] r = none) := by
  constructor
  · cases channelData with
    | nil => exact absurd rfl hne
    | cons c0 rest =>
        have heq' : ∀ c ∈ c0 :: rest, c.length = c0.length := by
          intro c hc
          exact heq c hc
        have hall : (c0 :: rest).all (fun c => c.length ≤ c0.length) = true := by
          rw [List.all_eq_true]
          intro c hc
          exact decide_eq_true (le_of_eq (heq' c hc))
        have hdata : (c0 :: rest).map
            (fun c => c ++ List.replicate (c0.length - c.length) 0) = c0 :: rest := by
          have hid : ∀ c ∈ c0 :: rest,
              c ++ List.replicate (c0.length - c.length) 0 = id c := by
            intro c hc
            rw [heq' c hc, Nat.sub_self]
            simp
          rw [List.map_congr_left hid, List.map_id]
        refine ⟨⟨c0 :: rest, rate⟩, ?_, rfl, rfl, rfl, rfl⟩
        show (if (c0 :: rest).all (fun c => c.length ≤ c0.length) then
          some (⟨(c0 :: rest).map (fun c => c ++ List.replicate (c0.length - c.length) 0),
            rate⟩ : EngineV2.Buf) else none) = some ⟨c0 :: rest, rate⟩
        rw [if_pos hall, hdata]
  · intro r
    rfl

/-- C10 witness: a concrete two-channel, one-sample-per-channel payload. -/
theorem createBufferFromData_spec_witness :
    (([[(1:ℚ)/2], [(1:ℚ)/4]] : List (List ℚ)) ≠ []) ∧
    (∃ buf, Serialization.createBufferFromData [[(1:ℚ)/2], [(1:ℚ)/4]] 44100 =
        some buf ∧
      buf.numberOfChannels = ([[(1:ℚ)/2], [(1:ℚ)/4]] : List (List ℚ)).length ∧
      buf.len = (([[(1:ℚ)/2], [(1:ℚ)/4]] : List (List ℚ)).headD []).length ∧
      buf.rate = 44100 ∧
      buf.data = [[(1:ℚ)/2], [(1:ℚ)/4]]) :=
  ⟨by decide,
    (createBufferFromData_spec [[(1:ℚ)/2], [(1:ℚ)/4]] 44100 (by decide)
      (by decide)).1⟩

end MusicRecorder
